import Mathlib

/-!
Shallow embedding of the coordination core of the `otter` cache
(`src/internal/core/cache.go`) and verification of the frozen claims.

The embedding translates the façade operations (`Get`, `Set`, `SetWithTTL`,
`SetIfAbsent`, `SetIfAbsentWithTTL`, `Delete`, `Has`, `Clear`, `Close`), the
maintenance loop (`process`) and the expiration sweeper (`cleanup`) of
`cache.go` into pure Lean functions over explicit state.  External
collaborators that are not under `src/` (the node record, the concurrent
hash table, the lossy read buffers, the statistics counters and the clock)
are modelled from the specification, as noted on each definition.  Node
pointers are modelled as natural-number identities into a heap function, so
that identity-based operations (`Die`, `DeleteNode`) and the sharing of
nodes between the hash table and the write queue are represented faithfully.
-/

namespace Otter

/-- Modelled from the spec: the entry record of the `node` package (not under
`src/`): key, value, expiration (seconds, `0` = never expires), cost and the
one-way liveness flag. -/
structure Node (K V : Type) where
  key : K
  value : V
  expiration : Nat
  cost : Nat
  alive : Bool
deriving DecidableEq

/-- Modelled from the spec: a node is expired when `expiration != 0` and
`now ≥ expiration` (expiration exactly at `now` counts as expired). -/
def Node.IsExpired (n : Node K V) (now : Nat) : Bool :=
  n.expiration != 0 && decide (n.expiration ≤ now)

/-- `zeroValue[V]()` of `cache.go`: the zero value of the value type. -/
def zeroValue (V : Type) [Inhabited V] : V :=
  default

/-- A write task of the `task` package (`task.WriteTask`), referring to nodes
by identity. -/
inductive WriteTask where
  | addTask (n : Nat)
  | updateTask (n oldNode : Nat)
  | deleteTask (n : Nat)
  | clearTask
  | closeTask
deriving DecidableEq

def WriteTask.isAdd : WriteTask → Bool
  | .addTask _ => true
  | _ => false

def WriteTask.isUpdate : WriteTask → Bool
  | .updateTask _ _ => true
  | _ => false

def WriteTask.isDelete : WriteTask → Bool
  | .deleteTask _ => true
  | _ => false

def WriteTask.isClear : WriteTask → Bool
  | .clearTask => true
  | _ => false

def WriteTask.isClose : WriteTask → Bool
  | .closeTask => true
  | _ => false

/-- `t.Node()`: the node the task refers to (control tasks carry none). -/
def WriteTask.node : WriteTask → Nat
  | .addTask n => n
  | .updateTask n _ => n
  | .deleteTask n => n
  | _ => 0

/-- `t.OldNode()`: the displaced node of an update task. -/
def WriteTask.oldNode : WriteTask → Nat
  | .updateTask _ o => o
  | _ => 0

section HashTable

variable {K : Type} [DecidableEq K]

/-- Modelled from the spec: the concurrent hash table (`hashtable` package,
not under `src/`) as an association list from keys to node identities.
`mapGet` is its atomic `Get`. -/
def mapGet (m : List (K × Nat)) (k : K) : Option Nat :=
  (m.find? (fun p => decide (p.1 = k))).map (·.2)

/-- Modelled from the spec: the hash table's atomic `Set`, returning the new
table and the displaced node, if any. -/
def mapSet (m : List (K × Nat)) (k : K) (id : Nat) : List (K × Nat) × Option Nat :=
  ((k, id) :: m.filter (fun p => !decide (p.1 = k)), mapGet m k)

/-- Modelled from the spec: the hash table's atomic `SetIfAbsent`, returning
the new table and the already-present node, if any. -/
def mapSetIfAbsent (m : List (K × Nat)) (k : K) (id : Nat) :
    List (K × Nat) × Option Nat :=
  match mapGet m k with
  | some old => (m, some old)
  | none => ((k, id) :: m, none)

/-- Modelled from the spec: the hash table's atomic `Delete`, returning the
new table and the removed node, if any. -/
def mapDelete (m : List (K × Nat)) (k : K) : List (K × Nat) × Option Nat :=
  (m.filter (fun p => !decide (p.1 = k)), mapGet m k)

end HashTable

/-- Marking a node dead (`n.Die()`), by identity, on the node heap. -/
def die {K V : Type} (heap : Nat → Node K V) (id : Nat) : Nat → Node K V :=
  fun j => if j = id then { heap id with alive := false } else heap j

/-- The façade state of `core.Cache`, restricted to the components the
claims are about.  The statistics collector is modelled as the `hits` and
`misses` counters; the lossy read buffers are modelled as the sequence of
read-hit events handed to them (`readBuffer`); the MPSC write queue is the
FIFO list `writeBuffer`; the policy's `MaxAvailableCost()` is the constant
`maxAvailableCost`; the process-wide seconds clock is `now` together with
the reference-counted `clockRunning` flag. -/
structure Cache (K V : Type) where
  heap : Nat → Node K V
  nextId : Nat
  hashmap : List (K × Nat)
  writeBuffer : List WriteTask
  readBuffer : List Nat
  hits : Nat
  misses : Nat
  now : Nat
  ttl : Nat
  maxAvailableCost : Nat
  costFunc : K → V → Nat
  isClosed : Bool
  closeOnceDone : Bool
  withExpiration : Bool
  clockRunning : Bool

namespace Cache

variable {K V : Type} [DecidableEq K] [Inhabited V]

/-- `stats.IncMisses()`. -/
def incMisses (c : Cache K V) : Cache K V :=
  { c with misses := c.misses + 1 }

/-- `stats.IncHits()`. -/
def incHits (c : Cache K V) : Cache K V :=
  { c with hits := c.hits + 1 }

/-- `afterGet`: hand a read-hit event for the node to a read buffer.  The
lossy buffer internals and the occasional batch delivery to `policy.Read`
are external to `src/`; the model records the event sequence handed over. -/
def afterGet (c : Cache K V) (id : Nat) : Cache K V :=
  { c with readBuffer := c.readBuffer ++ [id] }

/-- `Cache.Get` of `cache.go`, returning the Go result pair `(V, bool)`
together with the successor state. -/
def Get (c : Cache K V) (k : K) : (V × Bool) × Cache K V :=
  match mapGet c.hashmap k with
  | none => ((zeroValue V, false), c.incMisses)
  | some id =>
    let got := c.heap id
    if !got.alive then
      ((zeroValue V, false), c.incMisses)
    else if got.IsExpired c.now then
      ((zeroValue V, false),
        (({ c with writeBuffer := c.writeBuffer ++ [WriteTask.deleteTask id] } :
            Cache K V)).incMisses)
    else
      ((got.value, true), (c.afterGet id).incHits)

/-- `Cache.Has` of `cache.go`: `_, ok := c.Get(key); return ok`. -/
def Has (c : Cache K V) (k : K) : Bool × Cache K V :=
  let r := c.Get k
  (r.1.2, r.2)

/-- `Cache.defaultExpiration` of `cache.go`: `0` when no uniform TTL is set,
otherwise `unixtime.Now() + c.ttl`. -/
def defaultExpiration (c : Cache K V) : Nat :=
  if c.ttl = 0 then 0 else c.now + c.ttl

/-- `Cache.set` of `cache.go`: the shared implementation of the four public
`Set` variants, returning the Go boolean result and the successor state. -/
def set (c : Cache K V) (key : K) (value : V) (expiration : Nat)
    (onlyIfAbsent : Bool) : Bool × Cache K V :=
  let cost := c.costFunc key value
  if cost > c.maxAvailableCost then
    (false, c)
  else
    let n := c.nextId
    let c1 : Cache K V :=
      { c with
        heap := fun j =>
          if j = n then
            { key := key, value := value, expiration := expiration,
              cost := cost, alive := true }
          else c.heap j,
        nextId := c.nextId + 1 }
    if onlyIfAbsent then
      match mapSetIfAbsent c1.hashmap key n with
      | (m, none) =>
          (true, { c1 with hashmap := m,
                           writeBuffer := c1.writeBuffer ++ [WriteTask.addTask n] })
      | (m, some _) =>
          (false, { c1 with hashmap := m })
    else
      match mapSet c1.hashmap key n with
      | (m, some evicted) =>
          (true, { c1 with hashmap := m,
                           heap := die c1.heap evicted,
                           writeBuffer := c1.writeBuffer ++ [WriteTask.updateTask n evicted] })
      | (m, none) =>
          (true, { c1 with hashmap := m,
                           writeBuffer := c1.writeBuffer ++ [WriteTask.addTask n] })

/-- `getExpiration` of `cache.go`, with the duration already given in whole
seconds (the Go code converts the nanosecond duration by ceiling division
before adding it to the clock). -/
def getExpirationAt (now ttlSeconds : Nat) : Nat :=
  now + ttlSeconds

/-- `Cache.Set`. -/
def Set (c : Cache K V) (k : K) (v : V) : Bool × Cache K V :=
  c.set k v c.defaultExpiration false

/-- `Cache.SetWithTTL`. -/
def SetWithTTL (c : Cache K V) (k : K) (v : V) (ttl : Nat) : Bool × Cache K V :=
  c.set k v (getExpirationAt c.now ttl) false

/-- `Cache.SetIfAbsent`. -/
def SetIfAbsent (c : Cache K V) (k : K) (v : V) : Bool × Cache K V :=
  c.set k v c.defaultExpiration true

/-- `Cache.SetIfAbsentWithTTL`. -/
def SetIfAbsentWithTTL (c : Cache K V) (k : K) (v : V) (ttl : Nat) :
    Bool × Cache K V :=
  c.set k v (getExpirationAt c.now ttl) true

/-- `Cache.afterDelete` of `cache.go`: if a node was removed from the hash
table, mark it `Die` and enqueue a delete task. -/
def afterDelete (c : Cache K V) (deleted : Option Nat) : Cache K V :=
  match deleted with
  | some id =>
      { c with heap := die c.heap id,
               writeBuffer := c.writeBuffer ++ [WriteTask.deleteTask id] }
  | none => c

/-- `Cache.Delete` of `cache.go`: `c.afterDelete(c.hashmap.Delete(key))`. -/
def Delete (c : Cache K V) (k : K) : Cache K V :=
  let r := mapDelete c.hashmap k
  afterDelete { c with hashmap := r.1 } r.2

/-- `Cache.clear` of `cache.go`: clear the hash table and the read buffers,
enqueue the control task, then block on `doneClear` until the maintenance
loop has handled it.  The rendezvous with the maintenance loop is modelled
by applying the loop's control-branch effect on the shared state inline:
the loop drains the write queue and, for a close task, sets `isClosed`
(the policy clears are internal to the external policies).  Finally
`stats.Clear()` resets the counters. -/
def clear (c : Cache K V) (t : WriteTask) : Cache K V :=
  let c1 : Cache K V := { c with hashmap := [], readBuffer := [] }
  let c2 : Cache K V := { c1 with writeBuffer := c1.writeBuffer ++ [t] }
  let c3 : Cache K V :=
    { c2 with writeBuffer := [], isClosed := c2.isClosed || t.isClose }
  { c3 with hits := 0, misses := 0 }

/-- `Cache.Clear` of `cache.go`. -/
def Clear (c : Cache K V) : Cache K V :=
  c.clear WriteTask.clearTask

/-- `Cache.Close` of `cache.go`: `closeOnce.Do` runs the body at most once;
the body performs `clear` with a close task and stops the clock source when
expiration was enabled. -/
def Close (c : Cache K V) : Cache K V :=
  if c.closeOnceDone then c
  else
    let c1 : Cache K V := { c.clear WriteTask.closeTask with closeOnceDone := true }
    if c1.withExpiration then { c1 with clockRunning := false } else c1

end Cache

/-- Observable actions of the two worker goroutines on the policy mutex, the
external policies and the hash table, in program order. -/
inductive Ev where
  | lock
  | unlock
  | policyClear
  | expireClear
  | setClosed
  | signalDone
  | expireDelete (n : Nat)
  | expireAdd (n : Nat)
  | policyWrite (batch : List WriteTask)
  | policyDeleteBatch (ns : List Nat)
  | removeExpired
  | hashDeleteNode (n : Nat)
  | dieEv (n : Nat)
deriving DecidableEq

/-- `bufferCapacity` of `Cache.process`. -/
def bufferCapacity : Nat := 64

/-- The state of the maintenance loop of `Cache.process`: the pending batch
`buffer`, the task counter `i`, the `isClosed` flag it shares with the
sweeper, whether the loop has exited (`break`), the trace of observable
actions, and the list of batches passed to `policy.Write` so far. -/
structure ProcState where
  buffer : List WriteTask
  i : Nat
  closed : Bool
  terminated : Bool
  events : List Ev
  writeCalls : List (List WriteTask)
deriving DecidableEq

/-- The initial local state of `Cache.process`. -/
def procInit : ProcState :=
  { buffer := [], i := 0, closed := false, terminated := false,
    events := [], writeCalls := [] }

/-- The expiration-policy updates `Cache.process` performs for one task of
the pending batch (the `switch` on the task kind). -/
def expireEvents (alive : Nat → Bool) : WriteTask → List Ev
  | .deleteTask n => [Ev.expireDelete n]
  | .addTask n => if alive n then [Ev.expireAdd n] else []
  | .updateTask n o =>
      Ev.expireDelete o :: (if alive n then [Ev.expireAdd n] else [])
  | _ => []

/-- One non-control iteration of `Cache.process`: append the task to the
pending batch, bump the counter, and when the counter reaches
`bufferCapacity` apply the batch under the policy mutex.  `alive` is the
liveness of nodes by identity and `evict` the eviction choice of the
external `s3fifo` policy (`policy.Write`'s result). -/
def dataStep (alive : Nat → Bool) (evict : List WriteTask → List Nat)
    (s : ProcState) (t : WriteTask) : ProcState :=
  let buffer := s.buffer ++ [t]
  let i := s.i + 1
  if i ≥ bufferCapacity then
    let d := evict buffer
    { s with
      buffer := [],
      i := i - bufferCapacity,
      events := s.events ++ [Ev.lock]
        ++ (buffer.map (expireEvents alive)).flatten
        ++ [Ev.policyWrite buffer]
        ++ d.map Ev.expireDelete
        ++ [Ev.unlock]
        ++ (d.map (fun n => [Ev.hashDeleteNode n, Ev.dieEv n])).flatten,
      writeCalls := s.writeCalls ++ [buffer] }
  else
    { s with buffer := buffer, i := i }

/-- The `Clear`/`Close` branch of `Cache.process`: discard the pending batch
unapplied, drain the write queue, clear the policies under the policy
mutex, set `isClosed` for a close task, release the mutex, signal
`doneClear`, and `break` out of the loop exactly for a close task. -/
def controlStep (s : ProcState) (t : WriteTask) : ProcState :=
  { s with
    buffer := [],
    closed := s.closed || t.isClose,
    terminated := t.isClose,
    events := s.events ++ [Ev.lock, Ev.policyClear, Ev.expireClear]
      ++ (if t.isClose then [Ev.setClosed] else [])
      ++ [Ev.unlock, Ev.signalDone] }

/-- Run `Cache.process` over the tasks currently in the write queue, in FIFO
order.  A control task drains the remaining queue (so the rest of the list
is discarded), and after the loop has `break`-ed no task is processed. -/
def processRun (alive : Nat → Bool) (evict : List WriteTask → List Nat) :
    List WriteTask → ProcState → ProcState
  | [], s => s
  | t :: rest, s =>
    if s.terminated then s
    else if t.isClear || t.isClose then controlStep s t
    else processRun alive evict rest (dataStep alive evict s t)

/-- The state of the expiration sweeper of `Cache.cleanup`: the shared
`isClosed` flag, the nodes the external expiration policy will report as
newly expired (`expirePolicy.RemoveExpired`'s result), and the trace of
observable actions. -/
structure SweepState where
  isClosed : Bool
  pendingExpired : List Nat
  events : List Ev
deriving DecidableEq

/-- One iteration of `Cache.cleanup` (after the one-second sleep): acquire
the policy mutex; if `isClosed`, return — the Go code exits the goroutine
here without unlocking; otherwise remove the expired nodes, inform the
eviction policy, release the mutex, and only then delete each expired node
from the hash table by identity and mark it dead.  The returned flag is
true when the worker exited. -/
def cleanupIter (s : SweepState) : SweepState × Bool :=
  let s1 : SweepState := { s with events := s.events ++ [Ev.lock] }
  if s1.isClosed then
    (s1, true)
  else
    let e := s1.pendingExpired
    ({ s1 with
        pendingExpired := [],
        events := s1.events ++ [Ev.removeExpired, Ev.policyDeleteBatch e, Ev.unlock]
          ++ (e.map (fun n => [Ev.hashDeleteNode n, Ev.dieEv n])).flatten },
      false)

/-! ### Helper lemmas about the hash-table model -/

section MapLemmas

variable {K : Type} [DecidableEq K]

theorem mapGet_cons_self (m : List (K × Nat)) (k : K) (id : Nat) :
    mapGet ((k, id) :: m) k = some id := by
  simp [mapGet, List.find?]

theorem mapGet_filter_out (m : List (K × Nat)) (k : K) :
    mapGet (m.filter (fun p => !decide (p.1 = k))) k = none := by
  induction m with
  | nil => rfl
  | cons p m ih =>
    by_cases h : p.1 = k
    · simp [List.filter_cons, h, ih]
    · simp [List.filter_cons, h, mapGet, List.find?]

theorem find?_eq_none_of_mapGet_none (m : List (K × Nat)) (k : K)
    (h : mapGet m k = none) :
    m.find? (fun p => decide (p.1 = k)) = none := by
  cases hf : m.find? (fun p => decide (p.1 = k)) with
  | none => rfl
  | some x => simp [mapGet, hf] at h

theorem filter_of_mapGet_none (m : List (K × Nat)) (k : K)
    (h : mapGet m k = none) :
    m.filter (fun p => !decide (p.1 = k)) = m := by
  rw [List.filter_eq_self]
  intro a ha
  have h' := List.find?_eq_none.mp (find?_eq_none_of_mapGet_none m k h) a ha
  simpa using h'

theorem mapGet_some_mem (m : List (K × Nat)) (k : K) (id : Nat)
    (h : mapGet m k = some id) : ∃ p ∈ m, p.2 = id := by
  cases hf : m.find? (fun p => decide (p.1 = k)) with
  | none => simp [mapGet, hf] at h
  | some p =>
    have hp : p.2 = id := by simpa [mapGet, hf] using h
    exact ⟨p, List.mem_of_find?_eq_some hf, hp⟩

end MapLemmas

/-! ### Claims -/

/-- A concrete cache used by the witnesses: capacity-style bound 5, the cost
of a pair is its value, no TTL, empty table. -/
def witnessCache : Cache Nat Nat :=
  { heap := fun _ => { key := 0, value := 0, expiration := 0, cost := 0, alive := false },
    nextId := 0, hashmap := [], writeBuffer := [], readBuffer := [],
    hits := 0, misses := 0, now := 0, ttl := 0,
    maxAvailableCost := 5, costFunc := fun _ v => v,
    isClosed := false, closeOnceDone := false,
    withExpiration := false, clockRunning := false }

/-- When the cost check passes, `set` allocates the new node. -/
theorem set_allocates {K V : Type} [DecidableEq K] (c : Cache K V) (k : K)
    (v : V) (e : Nat) (oia : Bool)
    (h : ¬ c.costFunc k v > c.maxAvailableCost) :
    (c.set k v e oia).2.nextId = c.nextId + 1 := by
  unfold Cache.set
  rw [if_neg h]
  cases oia with
  | false =>
    simp only [Bool.false_eq_true, if_false]
    rcases hm : mapSet c.hashmap k c.nextId with ⟨m, o⟩
    cases o <;> simp [hm]
  | true =>
    simp only [if_true]
    rcases hm : mapSetIfAbsent c.hashmap k c.nextId with ⟨m, o⟩
    cases o <;> simp [hm]

/-- Claim C3: a pair whose cost exceeds `policy.MaxAvailableCost()` is
refused by every `Set` variant — the call returns `false` and the state
(hash table, node heap, write queue) is exactly unchanged — while a cost
equal to `MaxAvailableCost()` passes the check (the node is allocated). -/
theorem set_rejects_over_cost {K V : Type} [DecidableEq K] [Inhabited V]
    (c : Cache K V) (k : K) (v : V) (ttl : Nat)
    (h : c.costFunc k v > c.maxAvailableCost) :
    c.Set k v = (false, c) ∧
    c.SetWithTTL k v ttl = (false, c) ∧
    c.SetIfAbsent k v = (false, c) ∧
    c.SetIfAbsentWithTTL k v ttl = (false, c) ∧
    (∀ (c' : Cache K V) (k' : K) (v' : V) (e : Nat) (oia : Bool),
      c'.costFunc k' v' = c'.maxAvailableCost →
      (c'.set k' v' e oia).2.nextId = c'.nextId + 1) := by
  refine ⟨?_, ?_, ?_, ?_, ?_⟩
  · simp [Cache.Set, Cache.set, h]
  · simp [Cache.SetWithTTL, Cache.set, h]
  · simp [Cache.SetIfAbsent, Cache.set, h]
  · simp [Cache.SetIfAbsentWithTTL, Cache.set, h]
  · intro c' k' v' e oia h'
    exact set_allocates c' k' v' e oia (by omega)

/-- Witness for C3: with `maxAvailableCost = 5` and the value as cost,
`Set 1 6` is refused and leaves the cache untouched. -/
theorem set_rejects_over_cost_witness :
    witnessCache.costFunc 1 6 > witnessCache.maxAvailableCost ∧
    witnessCache.Set 1 6 = (false, witnessCache) :=
  ⟨by decide, (set_rejects_over_cost witnessCache 1 6 0 (by decide)).1⟩

/-- The witness cache with one live, never-expiring entry `1 ↦ 4` at node
identity `0`. -/
def witnessCacheFull : Cache Nat Nat :=
  { witnessCache with
    heap := fun i =>
      if i = 0 then { key := 1, value := 4, expiration := 0, cost := 1, alive := true }
      else { key := 0, value := 0, expiration := 0, cost := 0, alive := false },
    nextId := 1,
    hashmap := [(1, 0)] }

/-- Claim C4: `Get` returns the zero value and `false` and increments the
miss counter when the key is absent, when the node found is dead, or when
it is expired; in the expired case it additionally enqueues a delete task
for that node; otherwise it emits a read-hit event, increments the hit
counter, and returns the node's value with `true`. -/
theorem get_characterization {K V : Type} [DecidableEq K] [Inhabited V]
    (c : Cache K V) (k : K) :
    (mapGet c.hashmap k = none →
      c.Get k = ((zeroValue V, false), c.incMisses)) ∧
    (∀ id, mapGet c.hashmap k = some id → (c.heap id).alive = false →
      c.Get k = ((zeroValue V, false), c.incMisses)) ∧
    (∀ id, mapGet c.hashmap k = some id → (c.heap id).alive = true →
      (c.heap id).IsExpired c.now = true →
      c.Get k = ((zeroValue V, false),
        ({ c with writeBuffer := c.writeBuffer ++ [WriteTask.deleteTask id] } :
          Cache K V).incMisses)) ∧
    (∀ id, mapGet c.hashmap k = some id → (c.heap id).alive = true →
      (c.heap id).IsExpired c.now = false →
      c.Get k = (((c.heap id).value, true), (c.afterGet id).incHits)) := by
  refine ⟨?_, ?_, ?_, ?_⟩
  · intro h
    simp [Cache.Get, h]
  · intro id h ha
    simp [Cache.Get, h, ha]
  · intro id h ha he
    simp [Cache.Get, h, ha, he]
  · intro id h ha he
    simp [Cache.Get, h, ha, he]

/-- Witness for C4: the hit case on the one-entry cache. -/
theorem get_characterization_witness :
    mapGet witnessCacheFull.hashmap 1 = some 0 ∧
    (witnessCacheFull.heap 0).alive = true ∧
    (witnessCacheFull.heap 0).IsExpired witnessCacheFull.now = false ∧
    witnessCacheFull.Get 1 = ((4, true), (witnessCacheFull.afterGet 0).incHits) :=
  ⟨by decide, by decide, by decide,
    (get_characterization witnessCacheFull 1).2.2.2 0 (by decide) (by decide) (by decide)⟩

/-- Claim C5: with an admitted cost, the unconditional `set` returns `true`
and installs a fresh live node for the key; when a node was displaced it is
marked dead and an update task carrying both nodes is enqueued, otherwise
an add task is enqueued. -/
theorem set_unconditional {K V : Type} [DecidableEq K]
    (c : Cache K V) (k : K) (v : V) (e : Nat)
    (hwf : ∀ p ∈ c.hashmap, p.2 < c.nextId)
    (hcost : ¬ c.costFunc k v > c.maxAvailableCost) :
    (c.set k v e false).1 = true ∧
    mapGet (c.set k v e false).2.hashmap k = some c.nextId ∧
    (c.set k v e false).2.heap c.nextId =
      { key := k, value := v, expiration := e, cost := c.costFunc k v, alive := true } ∧
    (mapGet c.hashmap k = none →
      (c.set k v e false).2.writeBuffer = c.writeBuffer ++ [WriteTask.addTask c.nextId]) ∧
    (∀ old, mapGet c.hashmap k = some old →
      (c.set k v e false).2.writeBuffer = c.writeBuffer ++ [WriteTask.updateTask c.nextId old] ∧
      ((c.set k v e false).2.heap old).alive = false) := by
  have hne : ∀ old, mapGet c.hashmap k = some old → old ≠ c.nextId := by
    intro old h
    obtain ⟨p, hp, hp2⟩ := mapGet_some_mem _ _ _ h
    have := hwf p hp
    omega
  cases hg : mapGet c.hashmap k with
  | none =>
    refine ⟨?_, ?_, ?_, ?_, ?_⟩ <;>
      simp [Cache.set, hcost, mapSet, hg, mapGet_cons_self]
  | some old =>
    have h2 : c.nextId ≠ old := (hne old hg).symm
    refine ⟨?_, ?_, ?_, ?_, ?_⟩
    · simp [Cache.set, hcost, mapSet, hg]
    · simp [Cache.set, hcost, mapSet, hg, mapGet_cons_self]
    · simp [Cache.set, hcost, mapSet, hg, die, h2]
    · intro h
      cases h
    · intro o ho
      cases ho
      constructor
      · simp [Cache.set, hcost, mapSet, hg]
      · simp [Cache.set, hcost, mapSet, hg, die]

/-- Witness for C5: insertion into the one-entry cache displaces node `0`,
kills it and enqueues the update task. -/
theorem set_unconditional_witness :
    (witnessCacheFull.set 1 2 0 false).1 = true ∧
    (witnessCacheFull.set 1 2 0 false).2.writeBuffer = [WriteTask.updateTask 1 0] ∧
    ((witnessCacheFull.set 1 2 0 false).2.heap 0).alive = false := by
  have h := set_unconditional witnessCacheFull 1 2 0 (by decide) (by decide)
  exact ⟨h.1, (h.2.2.2.2 0 (by decide)).1, (h.2.2.2.2 0 (by decide)).2⟩

/-- Claim C6: with an admitted cost, `SetIfAbsent` returns `false` and
enqueues no write task when a live node already existed for the key;
otherwise it inserts the new node, enqueues an add task and returns `true`;
in particular the sequence `SetIfAbsent k v₁ = true`,
`SetIfAbsent k v₂ = false`, `Get k = (v₁, true)` holds on a TTL-free cache
with `k` initially absent. -/
theorem setIfAbsent_characterization {K V : Type} [DecidableEq K] [Inhabited V]
    (c : Cache K V) (k : K) (v : V) (e : Nat)
    (hcost : ¬ c.costFunc k v > c.maxAvailableCost) :
    (∀ old, mapGet c.hashmap k = some old → (c.heap old).alive = true →
      (c.set k v e true).1 = false ∧
      (c.set k v e true).2.writeBuffer = c.writeBuffer ∧
      (c.set k v e true).2.hashmap = c.hashmap) ∧
    (mapGet c.hashmap k = none →
      (c.set k v e true).1 = true ∧
      mapGet (c.set k v e true).2.hashmap k = some c.nextId ∧
      (c.set k v e true).2.writeBuffer = c.writeBuffer ++ [WriteTask.addTask c.nextId]) ∧
    (c.ttl = 0 → mapGet c.hashmap k = none →
      ∀ v2, ¬ c.costFunc k v2 > c.maxAvailableCost →
      (c.SetIfAbsent k v).1 = true ∧
      ((c.SetIfAbsent k v).2.SetIfAbsent k v2).1 = false ∧
      (((c.SetIfAbsent k v).2.SetIfAbsent k v2).2.Get k).1 = (v, true)) := by
  refine ⟨?_, ?_, ?_⟩
  · intro old hg ha
    refine ⟨?_, ?_, ?_⟩ <;> simp [Cache.set, hcost, mapSetIfAbsent, hg]
  · intro hg
    refine ⟨?_, ?_, ?_⟩ <;>
      simp [Cache.set, hcost, mapSetIfAbsent, hg, mapGet_cons_self]
  · intro h0 hg v2 hcost2
    have hne : c.nextId ≠ c.nextId + 1 := by omega
    refine ⟨?_, ?_, ?_⟩
    · simp [Cache.SetIfAbsent, Cache.set, hcost, mapSetIfAbsent, hg]
    · simp [Cache.SetIfAbsent, Cache.set, hcost, hcost2, mapSetIfAbsent, hg,
        mapGet_cons_self]
    · simp [Cache.SetIfAbsent, Cache.set, Cache.Get, Cache.defaultExpiration,
        hcost, hcost2, mapSetIfAbsent, hg, mapGet_cons_self, h0, hne,
        Node.IsExpired, Cache.afterGet, Cache.incHits]

/-- Witness for C6: the literal S3 scenario on the empty witness cache. -/
theorem setIfAbsent_characterization_witness :
    (witnessCache.SetIfAbsent 7 1).1 = true ∧
    ((witnessCache.SetIfAbsent 7 1).2.SetIfAbsent 7 2).1 = false ∧
    (((witnessCache.SetIfAbsent 7 1).2.SetIfAbsent 7 2).2.Get 7).1 = (1, true) :=
  (setIfAbsent_characterization witnessCache 7 1 0 (by decide)).2.2
    (by decide) (by decide) 2 (by decide)

/-- `Delete` on a key with no node in the hash table is the identity. -/
theorem delete_of_absent {K V : Type} [DecidableEq K] (c : Cache K V) (k : K)
    (h : mapGet c.hashmap k = none) : c.Delete k = c := by
  unfold Cache.Delete mapDelete
  rw [h, filter_of_mapGet_none c.hashmap k h]
  rfl

/-- After `Delete`, the key has no node in the hash table. -/
theorem mapGet_delete_none {K V : Type} [DecidableEq K] (c : Cache K V) (k : K) :
    mapGet (c.Delete k).hashmap k = none := by
  unfold Cache.Delete mapDelete Cache.afterDelete
  cases hg : mapGet c.hashmap k <;> simp [hg, mapGet_filter_out]

/-- Claim C7: `Delete` removes the key's node from the hash table and,
exactly when a node was removed, marks it dead and enqueues a delete task;
deleting an absent key is a no-op, so a second `Delete` of the same key is
a no-op. -/
theorem delete_characterization {K V : Type} [DecidableEq K]
    (c : Cache K V) (k : K) :
    (∀ id, mapGet c.hashmap k = some id →
      mapGet (c.Delete k).hashmap k = none ∧
      ((c.Delete k).heap id).alive = false ∧
      (c.Delete k).writeBuffer = c.writeBuffer ++ [WriteTask.deleteTask id]) ∧
    (mapGet c.hashmap k = none → c.Delete k = c) ∧
    (c.Delete k).Delete k = c.Delete k := by
  refine ⟨?_, delete_of_absent c k, delete_of_absent _ k (mapGet_delete_none c k)⟩
  intro id hg
  refine ⟨mapGet_delete_none c k, ?_, ?_⟩ <;>
    simp [Cache.Delete, mapDelete, Cache.afterDelete, hg, die]

/-- Witness for C7: deleting key `1` from the one-entry cache kills node
`0`, enqueues its delete task and empties the slot. -/
theorem delete_characterization_witness :
    mapGet (witnessCacheFull.Delete 1).hashmap 1 = none ∧
    ((witnessCacheFull.Delete 1).heap 0).alive = false ∧
    (witnessCacheFull.Delete 1).writeBuffer = [WriteTask.deleteTask 0] :=
  (delete_characterization witnessCacheFull 1).1 0 (by decide)

/-- Claim C8: the first `Close` performs the `Clear` semantics with a close
task — hash table, read buffers and write queue emptied, `isClosed` set by
the maintenance loop before it acknowledges, statistics reset — and stops
the clock source when expiration was enabled; `Close` is idempotent, so any
subsequent call changes nothing. -/
theorem close_idempotent {K V : Type} (c : Cache K V) :
    (c.closeOnceDone = false →
      c.Close.hashmap = [] ∧ c.Close.readBuffer = [] ∧
      c.Close.writeBuffer = [] ∧ c.Close.isClosed = true ∧
      c.Close.hits = 0 ∧ c.Close.misses = 0 ∧
      c.Close.closeOnceDone = true ∧
      (c.withExpiration = true → c.Close.clockRunning = false)) ∧
    c.Close.Close = c.Close := by
  constructor
  · intro h
    cases hwe : c.withExpiration <;>
      simp [Cache.Close, Cache.clear, h, hwe, WriteTask.isClose]
  · cases h : c.closeOnceDone with
    | true => simp [Cache.Close, h]
    | false =>
      cases hwe : c.withExpiration <;>
        simp [Cache.Close, Cache.clear, h, hwe]

/-- Witness for C8: closing the one-entry cache empties it, closes it and
resets the counters. -/
theorem close_idempotent_witness :
    witnessCacheFull.Close.hashmap = [] ∧
    witnessCacheFull.Close.isClosed = true ∧
    witnessCacheFull.Close.closeOnceDone = true := by
  have h := (close_idempotent witnessCacheFull).1 (by decide)
  exact ⟨h.1, h.2.2.2.1, h.2.2.2.2.2.2.1⟩

/-- Claim C10: `Has` returns exactly the boolean component of `Get` and
leaves the cache in exactly the state `Get` leaves it in (same counter
increments, read-hit events and delete-task enqueues). -/
theorem has_eq_get {K V : Type} [DecidableEq K] [Inhabited V]
    (c : Cache K V) (k : K) :
    c.Has k = ((c.Get k).1.2, (c.Get k).2) := rfl

/-- A `dataStep` preserves the batching invariant — the counter equals the
pending batch's length and stays below `bufferCapacity` — and any batch it
passes to `policy.Write` has exactly `bufferCapacity` tasks. -/
theorem dataStep_inv (alive : Nat → Bool) (evict : List WriteTask → List Nat)
    (s : ProcState) (t : WriteTask)
    (hi : s.i = s.buffer.length) (hlt : s.i < bufferCapacity)
    (hw : ∀ b ∈ s.writeCalls, b.length = bufferCapacity) :
    (dataStep alive evict s t).i = (dataStep alive evict s t).buffer.length ∧
    (dataStep alive evict s t).i < bufferCapacity ∧
    (∀ b ∈ (dataStep alive evict s t).writeCalls, b.length = bufferCapacity) := by
  unfold dataStep
  by_cases hc : s.i + 1 ≥ bufferCapacity
  · have hcap : 0 < bufferCapacity := by decide
    simp only [hc, if_true, List.length_nil, List.mem_append, List.mem_singleton]
    refine ⟨by omega, by omega, ?_⟩
    intro b hb
    rcases hb with hb | hb
    · exact hw b hb
    · subst hb
      simp only [List.length_append, List.length_singleton]
      omega
  · simp only [hc, if_false, List.length_append, List.length_singleton]
    exact ⟨by omega, by omega, hw⟩

/-- The `dataStep` branch never terminates the loop or flips its flags. -/
theorem dataStep_terminated (alive : Nat → Bool)
    (evict : List WriteTask → List Nat) (s : ProcState) (t : WriteTask) :
    (dataStep alive evict s t).terminated = s.terminated := by
  unfold dataStep
  by_cases hc : s.i + 1 ≥ bufferCapacity <;> simp [hc]

/-- In a run containing no control task, every batch passed to
`policy.Write` has exactly `bufferCapacity` tasks, given the batching
invariant at the start. -/
theorem processRun_batches_aux (alive : Nat → Bool)
    (evict : List WriteTask → List Nat) :
    ∀ (ts : List WriteTask) (s : ProcState),
      (∀ t ∈ ts, t.isClear = false ∧ t.isClose = false) →
      s.i = s.buffer.length → s.i < bufferCapacity →
      (∀ b ∈ s.writeCalls, b.length = bufferCapacity) →
      ∀ b ∈ (processRun alive evict ts s).writeCalls, b.length = bufferCapacity := by
  intro ts
  induction ts with
  | nil =>
    intro s _ _ _ hw
    simpa [processRun] using hw
  | cons t rest ih =>
    intro s hts hi hlt hw
    have ht := hts t (List.mem_cons_self t rest)
    by_cases hterm : s.terminated = true
    · simpa [processRun, hterm] using hw
    · have hterm' : s.terminated = false := by
        cases h : s.terminated
        · rfl
        · exact absurd h hterm
      rw [processRun, if_neg (by simp [hterm']), if_neg (by simp [ht.1, ht.2])]
      obtain ⟨h1, h2, h3⟩ := dataStep_inv alive evict s t hi hlt hw
      exact ih (dataStep alive evict s t)
        (fun t' ht' => hts t' (List.mem_cons_of_mem t ht')) h1 h2 h3

/-- Claim C2 (amended): the maintenance loop appends non-control tasks to
the pending batch and applies the batch exactly when its running counter
of appended tasks reaches 64; because a `Clear`/`Close` discards the batch
without resetting the counter, a batch applied after such a discard may
hold fewer than 64 tasks, but in every execution in which no control task
is processed each batch passed to `policy.Write` holds exactly 64 tasks. -/
theorem process_batches_of_64 (alive : Nat → Bool)
    (evict : List WriteTask → List Nat) (ts : List WriteTask)
    (h : ∀ t ∈ ts, t.isClear = false ∧ t.isClose = false) :
    ∀ b ∈ (processRun alive evict ts procInit).writeCalls,
      b.length = bufferCapacity :=
  processRun_batches_aux alive evict ts procInit h rfl (by decide)
    (by intro b hb; cases hb)

/-- Witness for the amended C2: feeding 64 add tasks from the initial state
produces exactly one `policy.Write` batch and it has 64 tasks. -/
theorem process_batches_of_64_witness :
    List.replicate 64 (WriteTask.addTask 0) ∈
      (processRun (fun _ => true) (fun _ => [])
        (List.replicate 64 (WriteTask.addTask 0)) procInit).writeCalls ∧
    (List.replicate 64 (WriteTask.addTask 0)).length = bufferCapacity :=
  ⟨by decide,
    process_batches_of_64 (fun _ => true) (fun _ => [])
      (List.replicate 64 (WriteTask.addTask 0)) (by decide) _ (by decide)⟩

/-- The run refuting C2 as stated: one add task, then a `Clear` (which
discards the pending batch but not the counter), then 63 further add
tasks. -/
def c2badRun : ProcState :=
  processRun (fun _ => true) (fun _ => [])
    (List.replicate 63 (WriteTask.addTask 0))
    (processRun (fun _ => true) (fun _ => [])
      [WriteTask.addTask 99, WriteTask.clearTask] procInit)

/-- Counterexample for C2: in the run `c2badRun` the loop calls
`policy.Write` with a batch of 63 tasks, not 64 — the counter `i` survives
the `Clear` that discarded the one pending task. -/
theorem process_batch_not_always_64 :
    ∃ b ∈ c2badRun.writeCalls, b.length ≠ 64 := by decide

/-- Claim C9: on dequeuing a `Clear` or `Close` task the maintenance loop
discards the pending batch unapplied, drains the rest of the write queue,
and under the policy mutex clears the policies — setting `isClosed` only
for `Close` — then releases the mutex, signals the done channel, and
terminates the loop exactly for `Close` (after which no task is ever
processed), while it continues for `Clear`. -/
theorem process_control_step (alive : Nat → Bool)
    (evict : List WriteTask → List Nat) (s : ProcState) (t : WriteTask)
    (rest : List WriteTask) (hterm : s.terminated = false)
    (ht : t.isClear = true ∨ t.isClose = true) :
    processRun alive evict (t :: rest) s = controlStep s t ∧
    (controlStep s t).buffer = [] ∧
    (controlStep s t).writeCalls = s.writeCalls ∧
    (controlStep s t).closed = (s.closed || t.isClose) ∧
    (controlStep s t).events = s.events ++ [Ev.lock, Ev.policyClear, Ev.expireClear]
      ++ (if t.isClose then [Ev.setClosed] else []) ++ [Ev.unlock, Ev.signalDone] ∧
    (controlStep s t).terminated = t.isClose ∧
    (∀ l, processRun alive evict l (controlStep s WriteTask.closeTask) =
      controlStep s WriteTask.closeTask) := by
    refine ⟨?_, rfl, rfl, rfl, ?_, rfl, ?_⟩
    · rcases ht with h | h <;> simp [processRun, hterm, h]
    · simp [controlStep]
    · intro l
      cases l with
      | nil => rfl
      | cons t' l' => simp [processRun, controlStep, WriteTask.isClose]

/-- Witness for C9: a `Clear` at the head of the queue with a task behind
it; the run stops at the control step and the trailing task is discarded
by the queue drain. -/
theorem process_control_step_witness :
    processRun (fun _ => true) (fun _ => [])
      [WriteTask.clearTask, WriteTask.addTask 3] procInit =
      controlStep procInit WriteTask.clearTask :=
  (process_control_step (fun _ => true) (fun _ => []) procInit
    WriteTask.clearTask [WriteTask.addTask 3] (by decide) (Or.inl (by decide))).1

/-- Claim C1 (code bug): on the iteration in which the sweeper observes the
closed flag, `cleanup` returns while still holding the policy mutex — the
iteration's trace is exactly `[lock]` with no `unlock` — whereas on a
normal iteration the mutex is released before the identity-based hash-table
deletions and `Die` calls. -/
theorem cleanup_exit_holds_mutex :
    (cleanupIter { isClosed := true, pendingExpired := [], events := [] }).2 = true ∧
    (cleanupIter { isClosed := true, pendingExpired := [], events := [] }).1.events =
      [Ev.lock] ∧
    Ev.unlock ∉
      (cleanupIter { isClosed := true, pendingExpired := [], events := [] }).1.events ∧
    (cleanupIter { isClosed := false, pendingExpired := [7], events := [] }).1.events =
      [Ev.lock, Ev.removeExpired, Ev.policyDeleteBatch [7], Ev.unlock,
       Ev.hashDeleteNode 7, Ev.dieEv 7] := by
  decide

end Otter
